import Mathlib

/-!
Verification of the password-derivation and symmetric-encryption core of
the `no-cloud` command-line tool (`no_cloud/crypto.py` and the `password`
command of `no_cloud/cli.py`).

Modelling conventions:
* Python byte strings are `List Nat` with every element `< 256`.
* Python text strings are Lean `String`; `str.encode` with the UTF-8 codec
  is the function `utf8` below.
* A Python value that may be either text (`six.text_type`) or bytes — such
  as the `password` / `salt` arguments of the source functions, which are
  encoded only `if isinstance(x, six.text_type)` — is a `PyStr`.
* `hashlib.md5` is implemented concretely (RFC 1321), as are
  `hexdigest`, `base64.urlsafe_b64encode` and UTF-8 encoding, so the key
  derivation in `crypto.py` is a fully computable function.
* The Fernet cipher of the `cryptography` package is an external library;
  it is modelled as an abstract implementation record `FernetImpl`, and the
  guarantees the spec attributes to it (round-trip, wrong-key rejection,
  tamper rejection) appear as hypotheses of the theorems.
* `hashlib.pbkdf2_hmac` with the sha512 hash is likewise abstracted as a
  function argument `pbkdf2 : List Nat → List Nat → Nat → List Nat`.
-/

namespace NoCloud

/-! ### UTF-8 encoding (Python `str.encode('utf-8')`) -/

/-- UTF-8 encoding of one Unicode code point. -/
def utf8Char (n : Nat) : List Nat :=
  if n < 128 then [n]
  else if n < 2048 then [192 + n / 64, 128 + n % 64]
  else if n < 65536 then [224 + n / 4096, 128 + n / 64 % 64, 128 + n % 64]
  else [240 + n / 262144, 128 + n / 4096 % 64, 128 + n / 64 % 64, 128 + n % 64]

/-- UTF-8 encoding of a text string, Python `s.encode('utf-8')`. -/
def utf8 (s : String) : List Nat :=
  s.data.flatMap (fun c => utf8Char c.toNat)

/-- A Python value that is either text (`six.text_type`) or a byte string. -/
inductive PyStr where
  | text (s : String)
  | bytes (b : List Nat)
deriving DecidableEq

/-- The `if isinstance(x, six.text_type): x = x.encode('utf-8')` idiom:
text is UTF-8 encoded, bytes pass through unchanged. -/
def PyStr.toBytes : PyStr → List Nat
  | .text s => utf8 s
  | .bytes b => b

/-! ### MD5 (`hashlib.md5`), RFC 1321 -/

/-- The 64 sine-derived MD5 round constants. -/
def md5K : List Nat :=
  [0xd76aa478, 0xe8c7b756, 0x242070db, 0xc1bdceee,
   0xf57c0faf, 0x4787c62a, 0xa8304613, 0xfd469501,
   0x698098d8, 0x8b44f7af, 0xffff5bb1, 0x895cd7be,
   0x6b901122, 0xfd987193, 0xa679438e, 0x49b40821,
   0xf61e2562, 0xc040b340, 0x265e5a51, 0xe9b6c7aa,
   0xd62f105d, 0x02441453, 0xd8a1e681, 0xe7d3fbc8,
   0x21e1cde6, 0xc33707d6, 0xf4d50d87, 0x455a14ed,
   0xa9e3e905, 0xfcefa3f8, 0x676f02d9, 0x8d2a4c8a,
   0xfffa3942, 0x8771f681, 0x6d9d6122, 0xfde5380c,
   0xa4beea44, 0x4bdecfa9, 0xf6bb4b60, 0xbebfbc70,
   0x289b7ec6, 0xeaa127fa, 0xd4ef3085, 0x04881d05,
   0xd9d4d039, 0xe6db99e5, 0x1fa27cf8, 0xc4ac5665,
   0xf4292244, 0x432aff97, 0xab9423a7, 0xfc93a039,
   0x655b59c3, 0x8f0ccc92, 0xffeff47d, 0x85845dd1,
   0x6fa87e4f, 0xfe2ce6e0, 0xa3014314, 0x4e0811a1,
   0xf7537e82, 0xbd3af235, 0x2ad7d2bb, 0xeb86d391]

/-- Per-round left-rotation amounts. -/
def md5S : List Nat :=
  [7, 12, 17, 22, 7, 12, 17, 22, 7, 12, 17, 22, 7, 12, 17, 22,
   5, 9, 14, 20, 5, 9, 14, 20, 5, 9, 14, 20, 5, 9, 14, 20,
   4, 11, 16, 23, 4, 11, 16, 23, 4, 11, 16, 23, 4, 11, 16, 23,
   6, 10, 15, 21, 6, 10, 15, 21, 6, 10, 15, 21, 6, 10, 15, 21]

/-- 32-bit left rotation on `Nat` (values `< 2^32`). -/
def rotl32 (x n : Nat) : Nat :=
  ((x <<< n) % 4294967296) ||| (x >>> (32 - n))

/-- The MD5 nonlinear function of round `i`. -/
def md5F (i b c d : Nat) : Nat :=
  if i < 16 then (b &&& c) ||| ((b ^^^ 4294967295) &&& d)
  else if i < 32 then (d &&& b) ||| ((d ^^^ 4294967295) &&& c)
  else if i < 48 then b ^^^ c ^^^ d
  else c ^^^ (b ||| (d ^^^ 4294967295))

/-- The MD5 message-word index of round `i`. -/
def md5G (i : Nat) : Nat :=
  if i < 16 then i
  else if i < 32 then (5 * i + 1) % 16
  else if i < 48 then (3 * i + 5) % 16
  else (7 * i) % 16

/-- One MD5 round: rotate the state, mixing in message word `md5G i`. -/
def md5Step (m : List Nat) (st : Nat × Nat × Nat × Nat) (i : Nat) :
    Nat × Nat × Nat × Nat :=
  let (a, b, c, d) := st
  let x := (a + md5F i b c d + md5K.getD i 0 + m.getD (md5G i) 0) % 4294967296
  let b2 := (b + rotl32 x (md5S.getD i 0)) % 4294967296
  (d, b2, b, c)

/-- Compress one 16-word block into the state. -/
def md5Block (st : Nat × Nat × Nat × Nat) (m : List Nat) :
    Nat × Nat × Nat × Nat :=
  let (a, b, c, d) := (List.range 64).foldl (md5Step m) st
  ((st.1 + a) % 4294967296, (st.2.1 + b) % 4294967296,
   (st.2.2.1 + c) % 4294967296, (st.2.2.2 + d) % 4294967296)

/-- Little-endian bytes of a 32-bit word. -/
def wordLE4 (n : Nat) : List Nat :=
  [n % 256, n / 256 % 256, n / 65536 % 256, n / 16777216 % 256]

/-- Little-endian bytes of the 64-bit message bit length. -/
def wordLE8 (n : Nat) : List Nat :=
  (List.range 8).map (fun i => n / 256 ^ i % 256)

/-- MD5 padding: `0x80`, zeros to 56 mod 64, then the bit length. -/
def md5Pad (msg : List Nat) : List Nat :=
  msg ++ [128] ++ List.replicate ((119 - msg.length % 64) % 64) 0
      ++ wordLE8 (8 * msg.length)

/-- Group bytes into 32-bit little-endian words. -/
def bytesToWords : List Nat → List Nat
  | a :: b :: c :: d :: rest =>
      (a + 256 * b + 65536 * c + 16777216 * d) :: bytesToWords rest
  | _ => []

/-- Fold the compression function over the 16-word chunks of `ws` (the
padded message always splits evenly into such chunks). -/
def md5Blocks (st : Nat × Nat × Nat × Nat) : List Nat →
    Nat × Nat × Nat × Nat
  | w0 :: w1 :: w2 :: w3 :: w4 :: w5 :: w6 :: w7 ::
    w8 :: w9 :: w10 :: w11 :: w12 :: w13 :: w14 :: w15 :: rest =>
      md5Blocks (md5Block st
        [w0, w1, w2, w3, w4, w5, w6, w7,
         w8, w9, w10, w11, w12, w13, w14, w15]) rest
  | _ => st

/-- `hashlib.md5(msg).digest()`: the 16-byte MD5 digest. -/
def md5 (msg : List Nat) : List Nat :=
  let st := md5Blocks (0x67452301, 0xefcdab89, 0x98badcfe, 0x10325476)
      (bytesToWords (md5Pad msg))
  wordLE4 st.1 ++ wordLE4 st.2.1 ++ wordLE4 st.2.2.1 ++ wordLE4 st.2.2.2

/-! ### Hex digest (Python `md5(...).hexdigest()`) -/

/-- Code of the lowercase hex digit for `n < 16`. -/
def hexCode (n : Nat) : Nat :=
  if n < 10 then 48 + n else 87 + n

/-- The lowercase hex character for `n < 16`. -/
def hexChar (n : Nat) : Char :=
  Char.ofNat (hexCode n)

/-- `hashlib.md5(...).hexdigest()` applied to a digest: the lowercase
hexadecimal text string, two characters per byte. -/
def hexdigest (bytes : List Nat) : String :=
  String.mk (bytes.flatMap (fun b => [hexChar (b / 16), hexChar (b % 16)]))

/-- The UTF-8 bytes of the hex string, as a pure byte-level function. -/
def hexBytes (bytes : List Nat) : List Nat :=
  bytes.flatMap (fun b => [hexCode (b / 16), hexCode (b % 16)])

/-! ### `base64.urlsafe_b64encode` -/

/-- The URL-safe base64 alphabet: value `< 64` to ASCII code. -/
def b64Char (n : Nat) : Nat :=
  if n < 26 then 65 + n
  else if n < 52 then 97 + (n - 26)
  else if n < 62 then 48 + (n - 52)
  else if n = 62 then 45
  else 95

/-- `base64.urlsafe_b64encode`: 3-byte groups to 4 characters, with
`'='` (code 61) padding for a short final group. -/
def urlsafe_b64encode : List Nat → List Nat
  | [] => []
  | [a] =>
      let n := a * 65536
      [b64Char (n / 262144), b64Char (n / 4096 % 64), 61, 61]
  | [a, b] =>
      let n := a * 65536 + b * 256
      [b64Char (n / 262144), b64Char (n / 4096 % 64), b64Char (n / 64 % 64), 61]
  | a :: b :: c :: rest =>
      let n := a * 65536 + b * 256 + c
      [b64Char (n / 262144), b64Char (n / 4096 % 64), b64Char (n / 64 % 64),
       b64Char (n % 64)] ++ urlsafe_b64encode rest

/-! ### `crypto.py`: `fernet_encrypt` / `fernet_decrypt`

The Fernet cipher itself comes from the external `cryptography` package;
it is abstracted as a record of an encryption and a decryption function,
where `decrypt` returning `none` models `raise InvalidToken`. -/

/-- An implementation of the external Fernet cipher: `encrypt key message`
produces a token, `decrypt key token` returns the plaintext or `none`
(the library's `InvalidToken`). -/
structure FernetImpl where
  encrypt : List Nat → List Nat → List Nat
  decrypt : List Nat → List Nat → Option (List Nat)

/-- The key-preparation steps shared verbatim by `fernet_encrypt` and
`fernet_decrypt` (crypto.py lines 12-21 and 27-35): encode a text
password to UTF-8, take the MD5 hexdigest (a text string), encode it to
UTF-8, and base64url-encode the result. -/
def fernet_key (password : PyStr) : List Nat :=
  let password := password.toBytes
  let password := hexdigest (md5 password)
  let password := (PyStr.text password).toBytes
  urlsafe_b64encode password

/-- `fernet_encrypt(message, password)` of crypto.py. -/
def fernet_encrypt (impl : FernetImpl) (message : List Nat)
    (password : PyStr) : List Nat :=
  impl.encrypt (fernet_key password) message

/-- `fernet_decrypt(message, password)` of crypto.py: on `InvalidToken`
the source raises `AssertionError('invalid decryption password')`,
modelled as `Except.error`. -/
def fernet_decrypt (impl : FernetImpl) (message : List Nat)
    (password : PyStr) : Except String (List Nat) :=
  match impl.decrypt (fernet_key password) message with
  | some plaintext => .ok plaintext
  | none => .error "invalid decryption password"

/-! ### `crypto.py`: `sha512_hash` and `digest` -/

/-- `sha512_hash(message, salt, iterations)` of crypto.py: encode text
arguments to UTF-8 and call `pbkdf2_hmac('sha512', message, salt,
iterations)`. The PBKDF2 primitive is the external `hashlib` function,
abstracted as the argument `pbkdf2`. -/
def sha512_hash (pbkdf2 : List Nat → List Nat → Nat → List Nat)
    (message salt : PyStr) (iterations : Nat) : List Nat :=
  pbkdf2 message.toBytes salt.toBytes iterations

/-- Python slicing `l[i:]` with its negative-index clamping semantics. -/
def pySliceFrom (l : List α) (i : Int) : List α :=
  if i < 0 then l.drop (max 0 (l.length + i)).toNat
  else l.drop (min (l.length : Int) i).toNat

/-- The index computation in the loop body of `digest` (crypto.py lines
61-63): `if c >= characters_length: c = c % characters_length`. Faithful
only for `charactersLength > 0`: at `charactersLength = 0` the source
raises `ZeroDivisionError` at `c % 0`, so theorems about `digest` carry
a non-empty-alphabet hypothesis. -/
def digestIndex (charactersLength c : Nat) : Nat :=
  if c ≥ charactersLength then c % charactersLength else c

/-- `digest(hashed, characters, length)` of crypto.py: iterate over
`hashed[-length:]`, reducing each byte modulo the alphabet size when out
of range, and collect `characters[c]`. Out-of-range indexing (only
possible for an empty alphabet, where Python would raise) is modelled
with a `' '` default. -/
def digest (hashed : List Nat) (characters : List Char) (length : Int) :
    List Char :=
  (pySliceFrom hashed (-length)).map
    (fun c => characters.getD (digestIndex characters.length c) ' ')

/-! ### `cli.py`: the `password` command core -/

/-- Python `string.ascii_lowercase`. -/
def ascii_lowercase : List Char :=
  (List.range 26).map (fun i => Char.ofNat (97 + i))

/-- Python `string.ascii_uppercase`. -/
def ascii_uppercase : List Char :=
  (List.range 26).map (fun i => Char.ofNat (65 + i))

/-- Python `string.digits`. -/
def ascii_digits : List Char :=
  (List.range 10).map (fun i => Char.ofNat (48 + i))

/-- Python `string.punctuation`: the 32 ASCII punctuation characters, in
ascending code order. -/
def ascii_punctuation : List Char :=
  ((List.range 128).filter (fun n =>
    (33 ≤ n ∧ n ≤ 47) ∨ (58 ≤ n ∧ n ≤ 64) ∨ (91 ≤ n ∧ n ≤ 96) ∨
    (123 ≤ n ∧ n ≤ 126))).map Char.ofNat

/-- Python `s * n` on strings: `n` copies of `s` concatenated. -/
def pyRepeat (s : List Char) (n : Nat) : List Char :=
  (List.replicate n s).flatten

/-- The digest-specification inputs of the `password` command: the
`service`, `username`, `iterations`, `characters` (the class-selection
string, e.g. `"ludp"`) and `length` configuration keys. -/
structure DigestSpec where
  service : String
  username : String
  iterations : Nat
  characters : List Char
  length : Int
deriving DecidableEq

/-- The alphabet construction of cli.py lines 359-367: start from the
empty string and append each selected class in source order. -/
def buildAlphabet (classes : List Char) : List Char :=
  let characters : List Char := []
  let characters := if 'l' ∈ classes
    then characters ++ pyRepeat ascii_lowercase 3 else characters
  let characters := if 'u' ∈ classes
    then characters ++ pyRepeat ascii_uppercase 3 else characters
  let characters := if 'd' ∈ classes
    then characters ++ pyRepeat ascii_digits 3 else characters
  let characters := if 'p' ∈ classes
    then characters ++ pyRepeat ascii_punctuation 2 else characters
  characters

/-- The password-derivation core of the `password` command (cli.py lines
352-376): the four `assert` statements, the alphabet construction, the
two chained `sha512_hash` calls and the final `digest`. A failed
`assert msg` is `Except.error msg`. -/
def passwordCommand (pbkdf2 : List Nat → List Nat → Nat → List Nat)
    (spec : DigestSpec) (masterPassword : String) :
    Except String (List Char) :=
  if spec.service = "" then .error "missing service"
  else if spec.username = "" then .error "missing username"
  else if ¬ spec.length > 0 then .error "invalid length"
  else
    let characters := buildAlphabet spec.characters
    if characters.length = 0 then .error "invalid characters"
    else
      let hashed := sha512_hash pbkdf2 (.text spec.username)
        (.text masterPassword) spec.iterations
      let hashed := sha512_hash pbkdf2 (.text spec.service)
        (.bytes hashed) spec.iterations
      .ok (digest hashed characters spec.length)

/-! ### Spec-side definitions (written from the specification's words,
for comparison with the code-side definitions above) -/

/-- `deriveCipherKey` as §4.1 of the spec words it: compute
`MD5(passphrase_utf8)`, hex-encode the digest to the lowercase hex
string, UTF-8 encode that string, then base64url-encode it. -/
def deriveCipherKey_spec (passphrase : String) : List Nat :=
  urlsafe_b64encode (utf8 (hexdigest (md5 (utf8 passphrase))))

/-- The alphabet as §4.1 step 4 of the spec words it: the concatenation,
in the fixed order lower, upper, digit, punctuation, of each selected
class repeated 3 times (lower/upper/digit) or 2 times (punctuation). -/
def specAlphabet (classes : List Char) : List Char :=
  (if 'l' ∈ classes then pyRepeat ascii_lowercase 3 else []) ++
  (if 'u' ∈ classes then pyRepeat ascii_uppercase 3 else []) ++
  (if 'd' ∈ classes then pyRepeat ascii_digits 3 else []) ++
  (if 'p' ∈ classes then pyRepeat ascii_punctuation 2 else [])

/-- The union of the selected character classes (claim C4's wording). -/
def classUnion (classes : List Char) : List Char :=
  (if 'l' ∈ classes then ascii_lowercase else []) ++
  (if 'u' ∈ classes then ascii_uppercase else []) ++
  (if 'd' ∈ classes then ascii_digits else []) ++
  (if 'p' ∈ classes then ascii_punctuation else [])

/-- A malformed digest specification in the sense of claim C8: empty
alphabet, non-positive length, or empty service/username. -/
def malformedSpec (spec : DigestSpec) : Prop :=
  spec.service = "" ∨ spec.username = "" ∨ ¬ spec.length > 0 ∨
  buildAlphabet spec.characters = []

instance (spec : DigestSpec) : Decidable (malformedSpec spec) := by
  unfold malformedSpec; infer_instance

/-- The last `n` elements of a list (the claim's "last `spec.length`
bytes of `h2`"). -/
def lastBytes (l : List α) (n : Nat) : List α :=
  l.drop (l.length - n)

/-! ### Decoders, used to prove the encodings injective -/

/-- Inverse of `hexCode` on hex-digit codes. -/
def hexVal (c : Nat) : Nat :=
  if c ≤ 57 then c - 48 else c - 87

/-- Inverse of `hexBytes`: read hex-digit codes in pairs. -/
def hexDecode : List Nat → List Nat
  | h1 :: h2 :: rest => (hexVal h1 * 16 + hexVal h2) :: hexDecode rest
  | _ => []

/-- Inverse of `b64Char` on alphabet codes. -/
def b64Val (c : Nat) : Nat :=
  if 65 ≤ c ∧ c ≤ 90 then c - 65
  else if 97 ≤ c ∧ c ≤ 122 then 26 + (c - 97)
  else if 48 ≤ c ∧ c ≤ 57 then 52 + (c - 48)
  else if c = 45 then 62
  else 63

/-- Inverse of `urlsafe_b64encode`. -/
def b64decode : List Nat → List Nat
  | x1 :: x2 :: x3 :: x4 :: rest =>
      if x3 = 61 then [(b64Val x1 * 262144 + b64Val x2 * 4096) / 65536]
      else if x4 = 61 then
        let n := b64Val x1 * 262144 + b64Val x2 * 4096 + b64Val x3 * 64
        [n / 65536, n / 256 % 256]
      else
        let n := b64Val x1 * 262144 + b64Val x2 * 4096 + b64Val x3 * 64 +
          b64Val x4
        n / 65536 :: n / 256 % 256 :: n % 256 :: b64decode rest
  | _ => []

/-! ### A concrete instance of the abstract Fernet cipher, used to
exhibit witnesses and counterexamples: the token records the key length,
the key and the message, and decryption checks the recorded key. It
satisfies the wrong-key rejection law exactly. -/

/-- A minimal cipher implementation: `encrypt` tags the message with the
key, `decrypt` checks the tag. -/
def toyFernet : FernetImpl :=
  FernetImpl.mk
    (fun key message => key.length :: (key ++ message))
    (fun key token =>
      if token.head? = some key.length ∧ (token.drop 1).take key.length = key
      then some ((token.drop 1).drop key.length)
      else none)

/-- Flip bit `i % 8` of byte `i / 8` of a byte string. -/
def flipBit (i : Nat) (bs : List Nat) : List Nat :=
  bs.take (i / 8) ++ [bs.getD (i / 8) 0 ^^^ (1 <<< (i % 8))] ++
    bs.drop (i / 8 + 1)

/-! ### A real MD5 collision (Wang, Feng, Lai, Yu 2004): two distinct
128-byte messages with the same MD5 digest. -/

/-- First message of the classic MD5 collision pair. -/
def collision1 : List Nat :=
  [209, 49, 221, 2, 197, 230, 238, 196, 105, 61, 154, 6, 152, 175, 249, 92,
   47, 202, 181, 135, 18, 70, 126, 171, 64, 4, 88, 62, 184, 251, 127, 137,
   85, 173, 52, 6, 9, 244, 179, 2, 131, 228, 136, 131, 37, 113, 65, 90,
   8, 81, 37, 232, 247, 205, 201, 159, 217, 29, 189, 242, 128, 55, 60, 91,
   216, 130, 62, 49, 86, 52, 143, 91, 174, 109, 172, 212, 54, 201, 25, 198,
   221, 83, 226, 180, 135, 218, 3, 253, 2, 57, 99, 6, 210, 72, 205, 160,
   233, 159, 51, 66, 15, 87, 126, 232, 206, 84, 182, 112, 128, 168, 13, 30,
   198, 152, 33, 188, 182, 168, 131, 147, 150, 249, 101, 43, 111, 247, 42, 112]

/-- Second message of the collision pair: differs from `collision1` in
six bytes yet has the same MD5 digest. -/
def collision2 : List Nat :=
  [209, 49, 221, 2, 197, 230, 238, 196, 105, 61, 154, 6, 152, 175, 249, 92,
   47, 202, 181, 7, 18, 70, 126, 171, 64, 4, 88, 62, 184, 251, 127, 137,
   85, 173, 52, 6, 9, 244, 179, 2, 131, 228, 136, 131, 37, 241, 65, 90,
   8, 81, 37, 232, 247, 205, 201, 159, 217, 29, 189, 114, 128, 55, 60, 91,
   216, 130, 62, 49, 86, 52, 143, 91, 174, 109, 172, 212, 54, 201, 25, 198,
   221, 83, 226, 52, 135, 218, 3, 253, 2, 57, 99, 6, 210, 72, 205, 160,
   233, 159, 51, 66, 15, 87, 126, 232, 206, 84, 182, 112, 128, 40, 13, 30,
   198, 152, 33, 188, 182, 168, 131, 147, 150, 249, 101, 171, 111, 247, 42, 112]

instance [DecidableEq ε] [DecidableEq α] : DecidableEq (Except ε α) :=
  fun a b =>
  match a, b with
  | .error e, .error f =>
      if h : e = f then .isTrue (congrArg Except.error h)
      else .isFalse (by intro hh; injection hh; contradiction)
  | .error _, .ok _ => .isFalse (by intro hh; injection hh)
  | .ok _, .error _ => .isFalse (by intro hh; injection hh)
  | .ok x, .ok y =>
      if h : x = y then .isTrue (congrArg Except.ok h)
      else .isFalse (by intro hh; injection hh; contradiction)

/-- The sixteen lowercase hex digit characters. -/
def hexDigits : List Char :=
  (List.range 16).map hexChar

/-! ### Helper lemmas -/

/-- An MD5 digest has 16 bytes. -/
theorem md5_length (msg : List Nat) : (md5 msg).length = 16 := by
  simp [md5, wordLE4]

/-- Every byte of an MD5 digest is below 256. -/
theorem md5_lt (msg : List Nat) : ∀ x ∈ md5 msg, x < 256 := by
  intro x hx
  simp [md5, wordLE4] at hx
  rcases hx with h | h | h | h <;> omega

set_option maxRecDepth 40000 in
/-- The hex characters used by `hexdigest` decode to their codes. -/
theorem utf8Char_hexChar : ∀ n < 16, utf8Char (hexChar n).toNat = [hexCode n] := by
  decide

/-- UTF-8 encoding the hexdigest text gives the byte-level `hexBytes`. -/
theorem utf8_hexdigest : ∀ bs : List Nat, (∀ b ∈ bs, b < 256) →
    utf8 (hexdigest bs) = hexBytes bs := by
  intro bs h
  induction bs with
  | nil => rfl
  | cons b bs ih =>
      have hb : b < 256 := h b (by simp)
      have h16a : b / 16 < 16 := by omega
      have h16b : b % 16 < 16 := by omega
      have hrest := ih (fun x hx => h x (by simp [hx]))
      simp only [utf8, hexdigest, hexBytes, List.flatMap_cons] at hrest ⊢
      simp [utf8Char_hexChar _ h16a, utf8Char_hexChar _ h16b, hrest]

/-- Hex codes of bytes are themselves bytes. -/
theorem hexBytes_lt : ∀ bs : List Nat, (∀ b ∈ bs, b < 256) →
    ∀ x ∈ hexBytes bs, x < 256 := by
  intro bs h x hx
  simp only [hexBytes, List.mem_flatMap] at hx
  obtain ⟨b, hb, hxb⟩ := hx
  have : b < 256 := h b hb
  simp only [List.mem_cons, List.mem_singleton] at hxb
  rcases hxb with rfl | rfl | h'
  · unfold hexCode; split <;> omega
  · unfold hexCode; split <;> omega
  · cases h'

set_option maxRecDepth 40000 in
/-- A hex pair decodes back to the byte. -/
theorem hexVal_hexCode : ∀ b < 256,
    hexVal (hexCode (b / 16)) * 16 + hexVal (hexCode (b % 16)) = b := by
  decide

/-- `hexDecode` is a left inverse of `hexBytes` on byte strings. -/
theorem hexDecode_hexBytes : ∀ bs : List Nat, (∀ b ∈ bs, b < 256) →
    hexDecode (hexBytes bs) = bs := by
  intro bs h
  induction bs with
  | nil => rfl
  | cons b bs ih =>
      have hb : b < 256 := h b (by simp)
      have hrest := ih (fun x hx => h x (by simp [hx]))
      simp only [hexBytes, List.flatMap_cons, List.cons_append,
        List.nil_append] at hrest ⊢
      simp only [hexDecode, hexVal_hexCode b hb, hrest]

/-- The base64url alphabet decodes to the 6-bit values. -/
theorem b64Val_b64Char : ∀ v < 64, b64Val (b64Char v) = v := by
  decide

/-- No base64url alphabet character is the padding character `'='`. -/
theorem b64Char_ne_61 : ∀ v < 64, b64Char v ≠ 61 := by
  decide

/-- `b64decode` is a left inverse of `urlsafe_b64encode` on byte strings. -/
theorem b64decode_encode : ∀ l : List Nat, (∀ b ∈ l, b < 256) →
    b64decode (urlsafe_b64encode l) = l
  | [] => fun _ => rfl
  | [a] => by
      intro h
      have ha : a < 256 := h a (by simp)
      have h1 : a * 65536 / 262144 < 64 := by omega
      have h2 : a * 65536 / 4096 % 64 < 64 := by omega
      simp [urlsafe_b64encode, b64decode, b64Val_b64Char _ h1,
        b64Val_b64Char _ h2]
      omega
  | [a, b] => by
      intro h
      have ha : a < 256 := h a (by simp)
      have hb : b < 256 := h b (by simp)
      have h1 : (a * 65536 + b * 256) / 262144 < 64 := by omega
      have h2 : (a * 65536 + b * 256) / 4096 % 64 < 64 := by omega
      have h3 : (a * 65536 + b * 256) / 64 % 64 < 64 := by omega
      simp [urlsafe_b64encode, b64decode, b64Char_ne_61 _ h3,
        b64Val_b64Char _ h1, b64Val_b64Char _ h2, b64Val_b64Char _ h3]
      omega
  | a :: b :: c :: rest => by
      intro h
      have ha : a < 256 := h a (by simp)
      have hb : b < 256 := h b (by simp)
      have hc : c < 256 := h c (by simp)
      have hrest := b64decode_encode rest
        (fun x hx => h x (by simp [hx]))
      have h1 : (a * 65536 + b * 256 + c) / 262144 < 64 := by omega
      have h2 : (a * 65536 + b * 256 + c) / 4096 % 64 < 64 := by omega
      have h3 : (a * 65536 + b * 256 + c) / 64 % 64 < 64 := by omega
      have h4 : (a * 65536 + b * 256 + c) % 64 < 64 := by omega
      simp [urlsafe_b64encode, b64decode, b64Char_ne_61 _ h3,
        b64Char_ne_61 _ h4, b64Val_b64Char _ h1, b64Val_b64Char _ h2,
        b64Val_b64Char _ h3, b64Val_b64Char _ h4, hrest]
      omega

/-- The derived cipher key, byte for byte: base64url of the hex codes of
the MD5 digest. -/
theorem fernet_key_eq (password : PyStr) :
    fernet_key password = urlsafe_b64encode (hexBytes (md5 password.toBytes)) := by
  simp only [fernet_key, PyStr.toBytes]
  rw [utf8_hexdigest _ (md5_lt _)]

/-- Distinct MD5 digests give distinct derived cipher keys. -/
theorem fernet_key_ne (k1 k2 : PyStr)
    (h : md5 k1.toBytes ≠ md5 k2.toBytes) :
    fernet_key k1 ≠ fernet_key k2 := by
  intro heq
  apply h
  rw [fernet_key_eq, fernet_key_eq] at heq
  have h1 := congrArg b64decode heq
  rw [b64decode_encode _ (hexBytes_lt _ (md5_lt _)),
    b64decode_encode _ (hexBytes_lt _ (md5_lt _))] at h1
  have h2 := congrArg hexDecode h1
  rwa [hexDecode_hexBytes _ (md5_lt _), hexDecode_hexBytes _ (md5_lt _)] at h2

/-- The toy cipher rejects every token encrypted under a different key. -/
theorem toyFernet_wrong_key (k k' m : List Nat) (h : k ≠ k') :
    toyFernet.decrypt k' (toyFernet.encrypt k m) = none := by
  simp only [toyFernet]
  rw [if_neg]
  rintro ⟨h1, h2⟩
  simp only [List.head?_cons, Option.some.injEq] at h1
  simp only [List.drop_one, List.tail_cons] at h2
  rw [← h1, List.take_left] at h2
  exact h h2

/-- Python `l[-n:]` for positive `n` is "drop all but the last `n`". -/
theorem pySliceFrom_neg (l : List α) (n : Int) (hn : 0 < n) :
    pySliceFrom l (-n) = l.drop (l.length - n.toNat) := by
  unfold pySliceFrom
  rw [if_pos (by omega)]
  congr 1
  omega

/-- The conditional index reduction of `digest` stays in bounds. -/
theorem digestIndex_lt (L c : Nat) (hL : 0 < L) : digestIndex L c < L := by
  unfold digestIndex
  split
  · exact Nat.mod_lt _ hL
  · omega

/-- The conditional index reduction equals unconditional reduction. -/
theorem digestIndex_eq_mod (L c : Nat) :
    digestIndex L c = c % L := by
  unfold digestIndex
  split
  · rfl
  · exact (Nat.mod_eq_of_lt (by omega)).symm

/-- The hexdigest of an `n`-byte value has `2 * n` characters. -/
theorem hexdigest_length : ∀ bs : List Nat, (hexdigest bs).length = 2 * bs.length := by
  intro bs
  induction bs with
  | nil => rfl
  | cons b bs ih =>
      simp only [hexdigest, String.length, List.flatMap_cons] at ih ⊢
      simp only [List.cons_append, List.nil_append, List.length_cons]
      omega

/-- Every character of a hexdigest is a lowercase hex digit. -/
theorem hexdigest_mem (bs : List Nat) (h : ∀ b ∈ bs, b < 256) :
    ∀ c ∈ (hexdigest bs).data, c ∈ hexDigits := by
  intro c hc
  simp only [hexdigest, List.mem_flatMap] at hc
  obtain ⟨b, hb, hcb⟩ := hc
  have hb256 : b < 256 := h b hb
  simp only [List.mem_cons, List.mem_singleton] at hcb
  simp only [hexDigits, List.mem_map]
  rcases hcb with rfl | rfl | h'
  · exact ⟨b / 16, by simp [List.mem_range]; omega, rfl⟩
  · exact ⟨b % 16, by simp [List.mem_range]; omega, rfl⟩
  · cases h'

/-- Membership in a Python string repetition implies membership in the
string. -/
theorem mem_pyRepeat (s : List Char) (n : Nat) (c : Char)
    (h : c ∈ pyRepeat s n) : c ∈ s := by
  induction n with
  | zero => cases h
  | succ n ih =>
      simp only [pyRepeat, List.replicate_succ, List.flatten_cons] at h
      rcases List.mem_append.mp h with h1 | h2
      · exact h1
      · exact ih h2

/-- The sequential alphabet construction of the source equals the
spec-shaped concatenation of conditional blocks. -/
theorem buildAlphabet_eq_spec (classes : List Char) :
    buildAlphabet classes = specAlphabet classes := by
  unfold buildAlphabet specAlphabet
  by_cases hl : 'l' ∈ classes <;> by_cases hu : 'u' ∈ classes <;>
    by_cases hd : 'd' ∈ classes <;> by_cases hp : 'p' ∈ classes <;>
    simp [hl, hu, hd, hp]

/-- Membership in a conditional repetition block implies membership in
the corresponding conditional class block. -/
theorem mem_ite_pyRepeat {P : Prop} [Decidable P] (s : List Char)
    (n : Nat) (c : Char) (h : c ∈ (if P then pyRepeat s n else [])) :
    c ∈ (if P then s else []) := by
  split at h
  · rename_i hP
    rw [if_pos hP]
    exact mem_pyRepeat s n c h
  · cases h

/-- The constructed alphabet only contains characters of the selected
classes. -/
theorem buildAlphabet_subset_classUnion (classes : List Char) :
    ∀ c ∈ buildAlphabet classes, c ∈ classUnion classes := by
  intro c hc
  rw [buildAlphabet_eq_spec] at hc
  unfold specAlphabet at hc
  unfold classUnion
  simp only [List.mem_append] at hc ⊢
  rcases hc with ((h | h) | h) | h
  · exact Or.inl (Or.inl (Or.inl (mem_ite_pyRepeat _ _ _ h)))
  · exact Or.inl (Or.inl (Or.inr (mem_ite_pyRepeat _ _ _ h)))
  · exact Or.inl (Or.inr (mem_ite_pyRepeat _ _ _ h))
  · exact Or.inr (mem_ite_pyRepeat _ _ _ h)

/-! ### Claim theorems -/

/-- C1: for every plaintext byte sequence `p` and passphrase `k`,
decrypting the token produced by encrypting `p` under `k` with the same
passphrase returns exactly `p`. The key derivation being deterministic,
both sides present the same key to the cipher, so the library's
round-trip guarantee (the hypothesis `hrt`) lifts to the source
functions. -/
theorem fernet_roundtrip (impl : FernetImpl) (p : List Nat) (k : PyStr)
    (hrt : impl.decrypt (fernet_key k) (impl.encrypt (fernet_key k) p) =
      some p) :
    fernet_decrypt impl (fernet_encrypt impl p k) k = .ok p := by
  simp [fernet_decrypt, fernet_encrypt, hrt]

set_option maxRecDepth 100000 in
/-- Witness for C1 at the toy cipher, plaintext `[104, 105]` and
passphrase `"pw1"`. -/
theorem fernet_roundtrip_witness :
    toyFernet.decrypt (fernet_key (.text "pw1"))
      (toyFernet.encrypt (fernet_key (.text "pw1")) [104, 105]) =
      some [104, 105] ∧
    fernet_decrypt toyFernet
      (fernet_encrypt toyFernet [104, 105] (.text "pw1")) (.text "pw1") =
      .ok [104, 105] :=
  ⟨by decide, fernet_roundtrip toyFernet [104, 105] (.text "pw1") (by decide)⟩

/-- C2: for every passphrase, the key presented to the cipher by both
`fernet_encrypt` and `fernet_decrypt` is
base64url(UTF-8(lowercase-hex(MD5(UTF-8(passphrase))))): the MD5 digest
(16 bytes) is first hex-encoded to a 32-character lowercase hex string
and only then base64url-encoded. -/
theorem cipher_key_derivation (impl : FernetImpl) (message : List Nat)
    (p : String) :
    fernet_encrypt impl message (.text p) =
      impl.encrypt (deriveCipherKey_spec p) message ∧
    fernet_decrypt impl message (.text p) =
      (match impl.decrypt (deriveCipherKey_spec p) message with
        | some plaintext => .ok plaintext
        | none => .error "invalid decryption password") ∧
    (md5 (utf8 p)).length = 16 ∧
    (hexdigest (md5 (utf8 p))).length = 32 ∧
    ∀ c ∈ (hexdigest (md5 (utf8 p))).data, c ∈ hexDigits := by
  refine ⟨rfl, rfl, md5_length _, ?_, hexdigest_mem _ (md5_lt _)⟩
  rw [hexdigest_length, md5_length]

/-- C6 (amended): decrypting a token encrypted under passphrase `k1`
with a passphrase `k2` whose MD5 digest differs fails with the
`AuthenticationError` message "invalid decryption password", given the
cipher's wrong-key rejection guarantee `hwk`. -/
theorem wrong_key_rejection (impl : FernetImpl) (p : List Nat)
    (k1 k2 : PyStr) (hmd5 : md5 k1.toBytes ≠ md5 k2.toBytes)
    (hwk : ∀ key key' m, key ≠ key' →
      impl.decrypt key' (impl.encrypt key m) = none) :
    fernet_decrypt impl (fernet_encrypt impl p k1) k2 =
      .error "invalid decryption password" := by
  have hne := fernet_key_ne k1 k2 hmd5
  simp [fernet_decrypt, fernet_encrypt, hwk _ _ _ hne]

set_option maxRecDepth 100000 in
/-- Witness for C6 at the toy cipher and passphrases `"pw1"`, `"pw2"`. -/
theorem wrong_key_rejection_witness :
    md5 (PyStr.text "pw1").toBytes ≠ md5 (PyStr.text "pw2").toBytes ∧
    fernet_decrypt toyFernet
      (fernet_encrypt toyFernet [1, 2] (.text "pw1")) (.text "pw2") =
      .error "invalid decryption password" :=
  ⟨by decide, wrong_key_rejection toyFernet [1, 2] (.text "pw1")
    (.text "pw2") (by decide) toyFernet_wrong_key⟩

set_option maxRecDepth 1000000 in
/-- Counterexample to C6 as stated: the two distinct 128-byte passphrases
of the classic MD5 collision have equal MD5 digests, hence equal derived
cipher keys, so decrypting with the other passphrase succeeds and
returns the plaintext instead of failing — under a cipher that does
satisfy the wrong-key rejection law (`toyFernet`). -/
theorem wrong_key_rejection_counterexample :
    PyStr.bytes collision1 ≠ PyStr.bytes collision2 ∧
    md5 collision1 = md5 collision2 ∧
    fernet_decrypt toyFernet
      (fernet_encrypt toyFernet (utf8 "hello") (.bytes collision1))
      (.bytes collision2) = .ok (utf8 "hello") := by
  refine ⟨by decide, by decide, by decide⟩

/-- C7: decrypting any single-bit modification of a token with the
original passphrase fails with the `AuthenticationError` message
"invalid decryption password" and never returns altered plaintext,
given that the cipher rejects the modified token (its authentication
guarantee, hypothesis `himpl`). -/
theorem tamper_rejection (impl : FernetImpl) (p : List Nat) (k : PyStr)
    (i : Nat)
    (himpl : impl.decrypt (fernet_key k)
      (flipBit i (fernet_encrypt impl p k)) = none) :
    fernet_decrypt impl (flipBit i (fernet_encrypt impl p k)) k =
      .error "invalid decryption password" := by
  simp [fernet_decrypt, himpl]

set_option maxRecDepth 100000 in
/-- Witness for C7 at the toy cipher, flipping bit 0 of the token. -/
theorem tamper_rejection_witness :
    toyFernet.decrypt (fernet_key (.text "pw"))
      (flipBit 0 (fernet_encrypt toyFernet [1] (.text "pw"))) = none ∧
    fernet_decrypt toyFernet
      (flipBit 0 (fernet_encrypt toyFernet [1] (.text "pw")))
      (.text "pw") = .error "invalid decryption password" :=
  ⟨by decide, tamper_rejection toyFernet [1] (.text "pw") 0 (by decide)⟩

/-- C3: for every valid digest specification and master password, the
derivation computes `h1 = PBKDF2-HMAC-SHA512(username, salt =
masterPassword)`, then `h2 = PBKDF2-HMAC-SHA512(service, salt = h1)`,
both with `spec.iterations` iterations and 64-byte outputs (the output
length being the library guarantee `hlen`), and the digest is taken
from `h2` — the argument order is exactly this one. -/
theorem password_derivation_chain
    (pbkdf2 : List Nat → List Nat → Nat → List Nat)
    (spec : DigestSpec) (masterPassword : String)
    (hlen : ∀ m s i, (pbkdf2 m s i).length = 64)
    (hservice : spec.service ≠ "") (husername : spec.username ≠ "")
    (hlength : spec.length > 0)
    (halpha : buildAlphabet spec.characters ≠ []) :
    (pbkdf2 (utf8 spec.username) (utf8 masterPassword)
      spec.iterations).length = 64 ∧
    (pbkdf2 (utf8 spec.service)
      (pbkdf2 (utf8 spec.username) (utf8 masterPassword) spec.iterations)
      spec.iterations).length = 64 ∧
    passwordCommand pbkdf2 spec masterPassword = .ok (digest
      (pbkdf2 (utf8 spec.service)
        (pbkdf2 (utf8 spec.username) (utf8 masterPassword) spec.iterations)
        spec.iterations)
      (buildAlphabet spec.characters) spec.length) := by
  refine ⟨hlen _ _ _, hlen _ _ _, ?_⟩
  unfold passwordCommand
  rw [if_neg hservice, if_neg husername, if_neg (not_not_intro hlength),
    if_neg (by simpa [List.length_eq_zero] using halpha)]
  rfl

/-- Witness for C3 at a constant stand-in for PBKDF2 and a concrete
specification. -/
theorem password_derivation_chain_witness :
    (∀ m s i, ((fun (_ : List Nat) (_ : List Nat) (_ : Nat) =>
      List.replicate 64 (0 : Nat)) m s i).length = 64) ∧
    passwordCommand (fun _ _ _ => List.replicate 64 0)
      (DigestSpec.mk "example.com" "root" 1 ['l'] 4) "master" =
      .ok ['a', 'a', 'a', 'a'] := by
  refine ⟨fun m s i => by simp, ?_⟩
  have h := password_derivation_chain (fun _ _ _ => List.replicate 64 0)
    (DigestSpec.mk "example.com" "root" 1 ['l'] 4) "master"
    (fun _ _ _ => by simp) (by decide) (by decide) (by decide) (by decide)
  exact h.2.2.trans (by decide)

/-- C4: with `0 < length ≤ 64`, a 64-byte `h2` and a non-empty selected
alphabet, the digest is the last `spec.length` bytes of `h2` mapped
through `alphabet[c mod len(alphabet)]`; its length is exactly
`spec.length` and every character belongs to the union of the selected
character classes. -/
theorem password_digest_shape (h2 : List Nat) (spec : DigestSpec)
    (hh2 : h2.length = 64) (hlength : 0 < spec.length)
    (hle : spec.length ≤ 64)
    (halpha : buildAlphabet spec.characters ≠ []) :
    digest h2 (buildAlphabet spec.characters) spec.length =
      (lastBytes h2 spec.length.toNat).map
        (fun c => (buildAlphabet spec.characters).getD
          (c % (buildAlphabet spec.characters).length) ' ') ∧
    (digest h2 (buildAlphabet spec.characters) spec.length).length =
      spec.length.toNat ∧
    ∀ ch ∈ digest h2 (buildAlphabet spec.characters) spec.length,
      ch ∈ classUnion spec.characters := by
  have hpos : 0 < (buildAlphabet spec.characters).length :=
    List.length_pos.mpr halpha
  have hslice := pySliceFrom_neg h2 spec.length hlength
  refine ⟨?_, ?_, ?_⟩
  · simp [digest, hslice, lastBytes, digestIndex_eq_mod]
  · simp only [digest, List.length_map, hslice, List.length_drop, hh2]
    omega
  · intro ch hch
    simp only [digest, List.mem_map] at hch
    obtain ⟨c, _, rfl⟩ := hch
    rw [List.getD_eq_getElem _ _ (digestIndex_lt _ _ hpos)]
    exact buildAlphabet_subset_classUnion _ _
      (List.getElem_mem (digestIndex_lt _ _ hpos))

/-- Witness for C4 at a concrete 64-byte hash and the lowercase-only
specification. -/
theorem password_digest_shape_witness :
    digest (List.replicate 64 7) (buildAlphabet ['l']) 4 =
      (lastBytes (List.replicate 64 7) 4).map
        (fun c => (buildAlphabet ['l']).getD
          (c % (buildAlphabet ['l']).length) ' ') ∧
    (digest (List.replicate 64 7) (buildAlphabet ['l']) 4).length = 4 ∧
    ∀ ch ∈ digest (List.replicate 64 7) (buildAlphabet ['l']) 4,
      ch ∈ classUnion ['l'] :=
  password_digest_shape (List.replicate 64 7)
    (DigestSpec.mk "s" "u" 1 ['l'] 4) (by simp) (by decide) (by decide)
    (by decide)

/-- C5: the alphabet is built by concatenating, in the fixed order
lower, upper, digit, punctuation, each selected class repeated 3 times
for lower/upper/digit and 2 times for punctuation. -/
theorem alphabet_construction (classes : List Char) :
    buildAlphabet classes = specAlphabet classes :=
  buildAlphabet_eq_spec classes

/-- C8: the derivation fails with an assertion error exactly when the
specification is malformed (empty service or username, non-positive
length, or an empty selected alphabet); moreover a malformed
specification produces the same error for every key-derivation function
and master password — the error is raised before any key derivation. -/
theorem invalid_spec_errors
    (pbkdf2 : List Nat → List Nat → Nat → List Nat)
    (spec : DigestSpec) (masterPassword : String) :
    ((∃ e, passwordCommand pbkdf2 spec masterPassword = .error e) ↔
      malformedSpec spec) ∧
    (malformedSpec spec →
      ∀ g masterPassword2, passwordCommand pbkdf2 spec masterPassword =
        passwordCommand g spec masterPassword2) := by
  unfold passwordCommand malformedSpec
  by_cases h1 : spec.service = "" <;> by_cases h2 : spec.username = "" <;>
    by_cases h3 : spec.length > 0 <;>
    by_cases h4 : buildAlphabet spec.characters = [] <;>
    simp [h1, h2, h3, h4, List.length_eq_zero]

/-- Witness for C8 at a specification with an empty service. -/
theorem invalid_spec_errors_witness :
    (∃ e, passwordCommand (fun _ _ _ => List.replicate 64 0)
      (DigestSpec.mk "" "root" 1 ['l'] 4) "master" = .error e) ∧
    passwordCommand (fun _ _ _ => List.replicate 64 0)
      (DigestSpec.mk "" "root" 1 ['l'] 4) "master" =
      passwordCommand (fun _ _ _ => List.replicate 64 1)
      (DigestSpec.mk "" "root" 1 ['l'] 4) "other" := by
  have h := invalid_spec_errors (fun _ _ _ => List.replicate 64 0)
    (DigestSpec.mk "" "root" 1 ['l'] 4) "master"
  exact ⟨h.1.mpr (Or.inl rfl), h.2 (Or.inl rfl) _ "other"⟩

/-- C9: when the requested length exceeds 64, the hash has 64 bytes and
the alphabet is non-empty (the domain on which the modelled `digest` is
faithful — with an empty alphabet the source raises `ZeroDivisionError`
at `c % 0`), the slice `hashed[-length:]` yields the whole hash, so the
digest does not fail and has exactly `min(length, 64) = 64`
characters. -/
theorem digest_over_length (hashed : List Nat) (characters : List Char)
    (length : Int) (hne : characters ≠ [])
    (hlen : hashed.length = 64) (hgt : 64 < length) :
    pySliceFrom hashed (-length) = hashed ∧
    ((digest hashed characters length).length : Int) = min length 64 := by
  have h1 := pySliceFrom_neg hashed length (by omega)
  have h2 : hashed.length - length.toNat = 0 := by omega
  have h3 : pySliceFrom hashed (-length) = hashed := by
    rw [h1, h2, List.drop_zero]
  refine ⟨h3, ?_⟩
  simp only [digest, List.length_map, h3, hlen]
  omega

/-- Witness for C9 at a concrete 64-byte hash and requested length 100. -/
theorem digest_over_length_witness :
    pySliceFrom (List.replicate 64 3) (-(100 : Int)) =
      List.replicate 64 3 ∧
    ((digest (List.replicate 64 3) ['a'] 100).length : Int) =
      min 100 64 :=
  digest_over_length (List.replicate 64 3) ['a'] 100 (by decide) (by simp)
    (by decide)

/-- C10: for a non-empty alphabet the index used by `digest` is always
in bounds, and the conditional reduction (`c % len` only when `c ≥ len`)
is equivalent to always indexing at `c % len`. -/
theorem digest_index_total (hashed : List Nat) (characters : List Char)
    (length : Int) (hne : characters ≠ []) :
    (∀ c, digestIndex characters.length c < characters.length) ∧
    digest hashed characters length =
      (pySliceFrom hashed (-length)).map
        (fun c => characters.getD (c % characters.length) ' ') := by
  have hpos : 0 < characters.length := List.length_pos.mpr hne
  exact ⟨fun c => digestIndex_lt _ _ hpos,
    by simp [digest, digestIndex_eq_mod]⟩

/-- Witness for C10 at a concrete two-character alphabet. -/
theorem digest_index_total_witness :
    (∀ c, digestIndex (['a', 'b'] : List Char).length c <
      (['a', 'b'] : List Char).length) ∧
    digest [5, 6] ['a', 'b'] 2 =
      (pySliceFrom [5, 6] (-(2 : Int))).map
        (fun c => (['a', 'b'] : List Char).getD (c % 2) ' ') :=
  digest_index_total [5, 6] ['a', 'b'] 2 (by decide)

end NoCloud
